import Mathlib

/-!
Verification of the Plot2Plan floor-plan generator backend.

Shallow embedding of the Python sources in `backend/services/`:
scoring, slicing-tree simulated annealing, the AI-pipeline fallback
validator, the rule-based chat fallback, BSP floor-plan generation,
squarified-treemap subdivision, entrance placement and DXF boundary
extraction.  Floats are modelled as exact rationals (`ℚ`); Python's
`float('inf')` is modelled as `⊤ : WithTop ℚ`.
-/

namespace Plot2Plan

/-- Sum of a list of rationals that are each at most 1 is at most the length. -/
lemma list_sum_le_length (l : List ℚ) (h : ∀ x ∈ l, x ≤ 1) : l.sum ≤ l.length := by
  induction l with
  | nil => simp
  | cons a t ih =>
    have ha : a ≤ 1 := h a (List.mem_cons_self a t)
    have ht : t.sum ≤ t.length := ih fun x hx => h x (List.mem_cons_of_mem a hx)
    simp only [List.sum_cons, List.length_cons]
    push_cast
    linarith

/-- Sum of a list of nonnegative rationals is nonnegative. -/
lemma list_sum_nonneg (l : List ℚ) (h : ∀ x ∈ l, 0 ≤ x) : 0 ≤ l.sum := by
  induction l with
  | nil => simp
  | cons a t ih =>
    have ha : 0 ≤ a := h a (List.mem_cons_self a t)
    have ht : 0 ≤ t.sum := ih fun x hx => h x (List.mem_cons_of_mem a hx)
    simp only [List.sum_cons]
    linarith

/-- A `filterMap` that skips elements satisfying `p` and maps the rest equals
filtering out `p` and then mapping. -/
lemma filterMap_skip_eq_filter_map {α β : Type} (p : α → Prop) [DecidablePred p]
    (f : α → β) (l : List α) :
    l.filterMap (fun a => if p a then none else some (f a)) =
      (l.filter fun a => ¬ p a).map f := by
  induction l with
  | nil => rfl
  | cons a t ih =>
    by_cases h : p a
    · simp [List.filterMap_cons, List.filter_cons, h, ih]
    · simp [List.filterMap_cons, List.filter_cons, h, ih]

/-- Round to the nearest integer, ties to even (Python's `round`). -/
def roundHalfEven (q : ℚ) : ℤ :=
  let f := ⌊q⌋
  let frac := q - f
  if frac < 1/2 then f
  else if 1/2 < frac then f + 1
  else if f % 2 = 0 then f else f + 1

/-- Python's `round(q, ndigits)` on exact rationals. -/
def pyRound (q : ℚ) (ndigits : ℕ) : ℚ :=
  (roundHalfEven (q * 10 ^ ndigits) : ℚ) / 10 ^ ndigits

end Plot2Plan

namespace Plot2Plan.Scoring

/-!
Embedding of `backend/services/layout_engine/scoring.py`.

A shapely polygon is abstracted by exactly the data the scoring code
reads from it: its bounding box (`polygon.bounds`) and its area
(`polygon.area`).
-/

/-- Data of a shapely polygon as used by the scoring module. -/
structure PolyData where
  minx : ℚ
  miny : ℚ
  maxx : ℚ
  maxy : ℚ
  area : ℚ
deriving DecidableEq

/-- Embedding of `room_model.Room` restricted to the fields the scoring
functions read (`room_type`, `polygon`, `target_area`; `Room.area` is
`polygon.area`). -/
structure Room where
  room_type : String
  polygon : PolyData
  target_area : ℚ
deriving DecidableEq

/-- Embedding of `scoring.area_accuracy_score`: 0.0 on the empty room list,
otherwise 1 − mean of `min(|actual − target| / target, 1)` over rooms with
positive target area (1.0 if there are none), clamped below at 0. -/
def area_accuracy_score (rooms : List Room) : ℚ :=
  if rooms = [] then 0
  else
    let errors := rooms.filterMap fun r =>
      if r.target_area ≤ 0 then none
      else some (min (|r.polygon.area - r.target_area| / r.target_area) 1)
    if errors = [] then 1
    else max 0 (1 - errors.sum / errors.length)

/-- Bounding-box width `maxx - minx` of a room's polygon. -/
def bboxW (r : Room) : ℚ := r.polygon.maxx - r.polygon.minx

/-- Bounding-box height `maxy - miny` of a room's polygon. -/
def bboxH (r : Room) : ℚ := r.polygon.maxy - r.polygon.miny

/-- Bounding-box aspect value `max(w/h, h/w)` of a room. -/
def aspect (r : Room) : ℚ := max (bboxW r / bboxH r) (bboxH r / bboxW r)

/-- Per-room aspect penalty from `scoring.shape_quality_score`'s loop body
(the room is already known not to be an entrance). -/
def shapePenalty (r : Room) : ℚ :=
  if bboxW r < 1/100 ∨ bboxH r < 1/100 then 1
  else if aspect r ≤ 3/2 then 0
  else if aspect r ≤ 11/5 then (aspect r - 3/2) / (7/10) * (1/2)
  else 1

/-- Embedding of `scoring.shape_quality_score`: 1.0 on the empty list,
otherwise 1 − mean of the aspect penalties of the non-entrance rooms
(1.0 if every room is an entrance), clamped below at 0. -/
def shape_quality_score (rooms : List Room) : ℚ :=
  if rooms = [] then 1
  else
    let penalties := rooms.filterMap fun r =>
      if r.room_type = "entrance" then none else some (shapePenalty r)
    if penalties = [] then 1
    else max 0 (1 - penalties.sum / penalties.length)

/-- Shape-quality penalty as claimed by the spec sentence for C2: the linear
band is `(ratio − 1.5)/0.7`, without the factor 0.5 the code applies. -/
def shapePenaltyClaimed (r : Room) : ℚ :=
  if aspect r ≤ 3/2 then 0
  else if aspect r ≤ 11/5 then (aspect r - 3/2) / (7/10)
  else 1

/-- Shape-quality score as the C2 claim words it: 1 minus the mean of the
claimed penalties over the non-entrance rooms. -/
def shape_quality_score_claimed (rooms : List Room) : ℚ :=
  let penalties := (rooms.filter fun r => r.room_type ≠ "entrance").map shapePenaltyClaimed
  if penalties = [] then 1
  else 1 - penalties.sum / penalties.length

/-- Shape-quality score as amended for C2: penalties are 0 up to ratio 1.5,
`(ratio − 1.5)/0.7 · 0.5` up to 2.2, and 1 beyond (also 1 for degenerate
bounding boxes); the score is 1 minus their mean over non-entrance rooms. -/
def shape_quality_score_amended (rooms : List Room) : ℚ :=
  let penalties := (rooms.filter fun r => r.room_type ≠ "entrance").map shapePenalty
  if penalties = [] then 1
  else 1 - penalties.sum / penalties.length

/-- The area-accuracy score as amended for C3: 1 − mean of the capped
relative errors over rooms with positive target, 1.0 when there are rooms
but none has a positive target, and 0.0 on the empty room list. -/
def area_accuracy_score_amended (rooms : List Room) : ℚ :=
  if rooms = [] then 0
  else
    let errors := (rooms.filter fun r => 0 < r.target_area).map fun r =>
      min (|r.polygon.area - r.target_area| / r.target_area) 1
    if errors = [] then 1
    else 1 - errors.sum / errors.length

lemma shapePenalty_nonneg (r : Room) : 0 ≤ shapePenalty r := by
  unfold shapePenalty
  split_ifs with h1 h2 h3
  · norm_num
  · norm_num
  · have h2' : (3:ℚ)/2 < aspect r := not_le.mp h2
    have hn : (0:ℚ) ≤ aspect r - 3/2 := by linarith
    have hd : (0:ℚ) ≤ (aspect r - 3/2) / (7/10) := div_nonneg hn (by norm_num)
    have := mul_nonneg hd (show (0:ℚ) ≤ 1/2 by norm_num)
    linarith
  · norm_num

lemma shapePenalty_le_one (r : Room) : shapePenalty r ≤ 1 := by
  unfold shapePenalty
  split_ifs with h1 h2 h3
  · norm_num
  · norm_num
  · have hub : aspect r - 3/2 ≤ 7/10 := by linarith
    have hd : (aspect r - 3/2) / (7/10) ≤ 1 := by
      rw [div_le_one (by norm_num : (0:ℚ) < 7/10)]
      linarith
    have h2' : (3:ℚ)/2 < aspect r := not_le.mp h2
    have hn : (0:ℚ) ≤ (aspect r - 3/2) / (7/10) := div_nonneg (by linarith) (by norm_num)
    nlinarith
  · norm_num

/-- A room whose polygon bounding box is 2 × 1 (aspect ratio 2), inside the
linear-penalty band. -/
def roomC2 : Room := ⟨"living", ⟨0, 0, 2, 1, 2⟩, 2⟩

/-- C2 counterexample: on a single 2 × 1 room the code's shape-quality score
is 9/14 (penalty `(2 − 1.5)/0.7 · 0.5 = 5/14`), while the claimed formula
`(ratio − 1.5)/0.7` would give 2/7 (penalty 5/7) — the claim, as stated,
is false on this input. -/
theorem shape_quality_claim_counterexample :
    shape_quality_score [roomC2] = 9/14 ∧
    shape_quality_score_claimed [roomC2] = 2/7 ∧
    (9/14 : ℚ) ≠ 2/7 := by
  have hne : ("living" : String) ≠ "entrance" := by decide
  refine ⟨?_, ?_, by norm_num⟩
  · norm_num [shape_quality_score, shapePenalty, aspect, bboxW, bboxH, roomC2,
      List.filterMap_cons, hne]
  · norm_num [shape_quality_score_claimed, shapePenaltyClaimed, aspect, bboxW, bboxH, roomC2,
      List.filter_cons, hne]

/-- C2 (amended): for every room list, `shape_quality_score` assigns each
non-entrance room penalty 0 when its bounding-box aspect ratio is at most
1.5, exactly `(ratio − 1.5)/0.7 · 0.5` when the ratio is in (1.5, 2.2],
and 1.0 beyond 2.2 (degenerate bounding boxes also get 1.0), and the score
equals 1 minus the mean of these penalties (the clamp at 0 never fires). -/
theorem shape_quality_score_amended_ok (rooms : List Room) :
    shape_quality_score rooms = shape_quality_score_amended rooms := by
  unfold shape_quality_score shape_quality_score_amended
  have hpens :
      rooms.filterMap (fun r => if r.room_type = "entrance" then none
          else some (shapePenalty r)) =
        (rooms.filter fun r => r.room_type ≠ "entrance").map shapePenalty := by
    simpa using
      filterMap_skip_eq_filter_map (fun r : Room => r.room_type = "entrance") shapePenalty rooms
  rw [hpens]
  set pens := (rooms.filter fun r => r.room_type ≠ "entrance").map shapePenalty with hp
  by_cases hr : rooms = []
  · subst hr
    simp [hp]
  · simp only [hr, if_false]
    by_cases hps : pens = []
    · simp [hps]
    · simp only [hps, if_false]
      have hlen : 0 < (pens.length : ℚ) := by
        have := List.length_pos.mpr hps
        exact_mod_cast this
      have hle : pens.sum ≤ pens.length := by
        apply list_sum_le_length
        intro x hx
        rcases List.mem_map.mp (hp ▸ hx) with ⟨r, _, rfl⟩
        exact shapePenalty_le_one r
      have hdiv : pens.sum / pens.length ≤ 1 := by
        rw [div_le_one hlen]
        exact hle
      have : (0:ℚ) ≤ 1 - pens.sum / pens.length := by linarith
      exact max_eq_right this

/-- C3 counterexample: on the empty room list the code returns 0.0, not the
1.0 demanded by the claim's vacuous case. -/
theorem area_accuracy_empty_counterexample :
    area_accuracy_score [] = 0 ∧ (0 : ℚ) ≠ 1 := by
  constructor
  · rfl
  · norm_num

/-- C3 (amended): for every room list, the area-accuracy score is
`1 − mean(min(|actual − target|/target, 1))` over exactly the rooms with
positive target area, 1.0 when the list is non-empty but no room has a
positive target, and 0.0 on the empty list (the clamp at 0 never fires). -/
theorem area_accuracy_score_amended_ok (rooms : List Room) :
    area_accuracy_score rooms = area_accuracy_score_amended rooms := by
  unfold area_accuracy_score area_accuracy_score_amended
  have herrs :
      rooms.filterMap (fun r => if r.target_area ≤ 0 then none
          else some (min (|r.polygon.area - r.target_area| / r.target_area) 1)) =
        (rooms.filter fun r => 0 < r.target_area).map fun r =>
          min (|r.polygon.area - r.target_area| / r.target_area) 1 := by
    rw [filterMap_skip_eq_filter_map (fun r : Room => r.target_area ≤ 0)]
    congr 1
    apply List.filter_congr
    intro a _
    simp [not_le]
  rw [herrs]
  set errs := (rooms.filter fun r => 0 < r.target_area).map fun r =>
    min (|r.polygon.area - r.target_area| / r.target_area) 1 with he
  by_cases hr : rooms = []
  · subst hr
    simp [he]
  · simp only [hr, if_false]
    by_cases hes : errs = []
    · simp [hes]
    · simp only [hes, if_false]
      have hlen : 0 < (errs.length : ℚ) := by
        have := List.length_pos.mpr hes
        exact_mod_cast this
      have hle : errs.sum ≤ errs.length := by
        apply list_sum_le_length
        intro x hx
        rcases List.mem_map.mp (he ▸ hx) with ⟨r, _, rfl⟩
        exact min_le_right _ _
      have hdiv : errs.sum / errs.length ≤ 1 := by
        rw [div_le_one hlen]
        exact hle
      have : (0:ℚ) ≤ 1 - errs.sum / errs.length := by linarith
      exact max_eq_right this

end Plot2Plan.Scoring

namespace Plot2Plan.Slicing

/-!
Embedding of `_simulated_annealing` from
`backend/services/layout_engine/slicing.py`.

The slicing tree (type `T`) and the room list produced by
`_evaluate_tree` (type `R`) are kept abstract: the annealing loop only
ever copies them, mutates the tree through `random`-driven
`_mutate_tree`, and scores them.  Per-iteration randomness is an oracle:
`mutate` packages `_mutate_tree`'s random choices, and `accept δ`
packages the outcome of `random.random() < exp(δ / max(t, 1e-10))`
(the Metropolis draw) at score difference `δ`.  Deep copies are
identities in this pure model.
-/

/-- State of the annealing loop: the tracked best (tree, rooms, score)
triple and the currently accepted tree with its score. -/
structure SAState (T R : Type) where
  bestTree : T
  bestRooms : R
  bestScore : ℚ
  currentTree : T
  currentScore : ℚ

/-- One iteration's random choices: the tree mutation and the Metropolis
acceptance draw as a function of the score difference `δ`. -/
structure SAOracle (T : Type) where
  mutate : T → T
  accept : ℚ → Bool

/-- One iteration of the `for i in range(iterations)` loop of
`_simulated_annealing`: mutate the current tree, evaluate and score it,
accept it when `δ > 0` or the Metropolis draw succeeds, and update the
best triple when the accepted score strictly beats the best score. -/
def saStep {T R : Type} (evalRooms : T → R) (score : R → ℚ)
    (st : SAState T R) (o : SAOracle T) : SAState T R :=
  let candidateTree := o.mutate st.currentTree
  let candidateRooms := evalRooms candidateTree
  let candidateScore := score candidateRooms
  let delta := candidateScore - st.currentScore
  if 0 < delta ∨ o.accept delta then
    if st.bestScore < candidateScore then
      ⟨candidateTree, candidateRooms, candidateScore, candidateTree, candidateScore⟩
    else
      ⟨st.bestTree, st.bestRooms, st.bestScore, candidateTree, candidateScore⟩
  else st

/-- The annealing loop as a fold of `saStep` over the per-iteration
oracles. -/
def saRun {T R : Type} (evalRooms : T → R) (score : R → ℚ)
    (st : SAState T R) (os : List (SAOracle T)) : SAState T R :=
  os.foldl (saStep evalRooms score) st

/-- Initial state of `_simulated_annealing`: best and current both start
at the input tree and its score. -/
def saInit {T R : Type} (evalRooms : T → R) (score : R → ℚ) (tree : T) : SAState T R :=
  ⟨tree, evalRooms tree, score (evalRooms tree), tree, score (evalRooms tree)⟩

/-- Embedding of `_simulated_annealing`: run the loop and return the best
(tree, rooms, score) triple. -/
def simulatedAnnealing {T R : Type} (evalRooms : T → R) (score : R → ℚ)
    (tree : T) (os : List (SAOracle T)) : T × R × ℚ :=
  let final := saRun evalRooms score (saInit evalRooms score tree) os
  (final.bestTree, final.bestRooms, final.bestScore)

/-- Scores of the candidate layouts evaluated at each iteration of the
loop, in order. -/
def saCandidateScores {T R : Type} (evalRooms : T → R) (score : R → ℚ) :
    SAState T R → List (SAOracle T) → List ℚ
  | _, [] => []
  | st, o :: os =>
    score (evalRooms (o.mutate st.currentTree)) ::
      saCandidateScores evalRooms score (saStep evalRooms score st o) os

lemma saStep_best_mono {T R : Type} (evalRooms : T → R) (score : R → ℚ)
    (st : SAState T R) (o : SAOracle T) :
    st.bestScore ≤ (saStep evalRooms score st o).bestScore := by
  simp only [saStep]
  split_ifs with h1 h2
  · exact le_of_lt h2
  · exact le_refl _
  · exact le_refl _

lemma saStep_current_le_best {T R : Type} (evalRooms : T → R) (score : R → ℚ)
    (st : SAState T R) (o : SAOracle T)
    (h : st.currentScore ≤ st.bestScore) :
    (saStep evalRooms score st o).currentScore ≤ (saStep evalRooms score st o).bestScore := by
  simp only [saStep]
  split_ifs with h1 h2
  · exact le_refl _
  · exact le_of_not_lt h2
  · exact h

lemma saStep_cand_le_best {T R : Type} (evalRooms : T → R) (score : R → ℚ)
    (st : SAState T R) (o : SAOracle T)
    (hinv : st.currentScore ≤ st.bestScore) :
    score (evalRooms (o.mutate st.currentTree)) ≤ (saStep evalRooms score st o).bestScore := by
  simp only [saStep]
  split_ifs with h1 h2
  · exact le_refl _
  · exact le_of_not_lt h2
  · push_neg at h1
    have h11 := h1.1
    linarith

lemma saRun_best_mono {T R : Type} (evalRooms : T → R) (score : R → ℚ)
    (st : SAState T R) (os : List (SAOracle T)) :
    st.bestScore ≤ (saRun evalRooms score st os).bestScore := by
  induction os generalizing st with
  | nil => exact le_refl _
  | cons o os ih =>
    calc st.bestScore ≤ (saStep evalRooms score st o).bestScore :=
          saStep_best_mono evalRooms score st o
      _ ≤ (saRun evalRooms score (saStep evalRooms score st o) os).bestScore := ih _

lemma saCandidateScores_le_best {T R : Type} (evalRooms : T → R) (score : R → ℚ)
    (st : SAState T R) (os : List (SAOracle T))
    (hinv : st.currentScore ≤ st.bestScore) :
    ∀ c ∈ saCandidateScores evalRooms score st os,
      c ≤ (saRun evalRooms score st os).bestScore := by
  induction os generalizing st with
  | nil => intro c hc; simp [saCandidateScores] at hc
  | cons o os ih =>
    intro c hc
    rw [saCandidateScores] at hc
    have hrun : saRun evalRooms score st (o :: os) =
        saRun evalRooms score (saStep evalRooms score st o) os := by
      simp [saRun]
    rw [hrun]
    rcases List.mem_cons.mp hc with hhead | htail
    · subst hhead
      calc score (evalRooms (o.mutate st.currentTree))
          ≤ (saStep evalRooms score st o).bestScore :=
            saStep_cand_le_best evalRooms score st o hinv
        _ ≤ (saRun evalRooms score (saStep evalRooms score st o) os).bestScore :=
            saRun_best_mono evalRooms score _ os
    · have hinv' := saStep_current_le_best evalRooms score st o hinv
      exact ih (saStep evalRooms score st o) hinv' c htail

/-- Oracles exhibiting a transient worsening: the mutation always yields
tree `1` and the Metropolis draw always accepts. -/
def saWorseOracle : SAOracle ℕ := ⟨fun _ => 1, fun _ => true⟩

/-- Scores used by the transient-worsening instance: tree `n` scores `n`. -/
def saNatScore (n : ℕ) : ℚ := (n : ℚ)

/-- C1: in every simulated-annealing run, the tracked best score never
decreases as further iterations are appended, the returned best score is at
least the initial tree's score and at least every candidate score evaluated
during the run, and yet the currently accepted state may transiently worsen
(witnessed by a concrete run in which the current score drops from 3 to 1
while the best score stays 3). -/
theorem simulated_annealing_best_monotone :
    (∀ (T R : Type) (evalRooms : T → R) (score : R → ℚ) (tree : T)
        (os os' : List (SAOracle T)),
      (saRun evalRooms score (saInit evalRooms score tree) os).bestScore ≤
        (saRun evalRooms score (saInit evalRooms score tree) (os ++ os')).bestScore) ∧
    (∀ (T R : Type) (evalRooms : T → R) (score : R → ℚ) (tree : T)
        (os : List (SAOracle T)),
      score (evalRooms tree) ≤ (simulatedAnnealing evalRooms score tree os).2.2) ∧
    (∀ (T R : Type) (evalRooms : T → R) (score : R → ℚ) (tree : T)
        (os : List (SAOracle T)),
      ∀ c ∈ saCandidateScores evalRooms score (saInit evalRooms score tree) os,
        c ≤ (simulatedAnnealing evalRooms score tree os).2.2) ∧
    ((saRun id saNatScore (saInit id saNatScore 3) [saWorseOracle]).currentScore <
        (saInit (id : ℕ → ℕ) saNatScore 3).currentScore ∧
      (saRun id saNatScore (saInit id saNatScore 3) [saWorseOracle]).bestScore =
        (saInit (id : ℕ → ℕ) saNatScore 3).bestScore) := by
  refine ⟨?_, ?_, ?_, ?_⟩
  · intro T R evalRooms score tree os os'
    have h := saRun_best_mono evalRooms score
      (saRun evalRooms score (saInit evalRooms score tree) os) os'
    simpa [saRun, List.foldl_append] using h
  · intro T R evalRooms score tree os
    exact saRun_best_mono evalRooms score _ os
  · intro T R evalRooms score tree os c hc
    exact saCandidateScores_le_best evalRooms score _ os (le_refl _) c hc
  · constructor
    · show (saStep id saNatScore (saInit id saNatScore 3) saWorseOracle).currentScore < _
      norm_num [saStep, saInit, saNatScore, saWorseOracle]
    · show (saStep id saNatScore (saInit id saNatScore 3) saWorseOracle).bestScore = _
      norm_num [saStep, saInit, saNatScore, saWorseOracle]

/-- Witness for C1: on the concrete one-iteration run the single candidate
score 1 is indeed bounded by the returned best score. -/
theorem simulated_annealing_best_monotone_witness :
    (1 : ℚ) ∈ saCandidateScores id saNatScore (saInit id saNatScore 3) [saWorseOracle] ∧
    (1 : ℚ) ≤ (simulatedAnnealing id saNatScore 3 [saWorseOracle]).2.2 := by
  have hmem : (1 : ℚ) ∈ saCandidateScores id saNatScore (saInit id saNatScore 3)
      [saWorseOracle] := by
    norm_num [saCandidateScores, saInit, saStep, saNatScore, saWorseOracle]
  exact ⟨hmem, simulated_annealing_best_monotone.2.2.1 ℕ ℕ id saNatScore 3
    [saWorseOracle] 1 hmem⟩

end Plot2Plan.Slicing

namespace Plot2Plan.Pipeline

/-!
Embedding of the "original fallback" local check battery of
`_fallback_validate` in `backend/services/ai_pipeline.py` (lines
940-1013; the preceding `arch_engine` import always fails since no
`arch_engine` module exists in the repository, so this battery is the
code that runs).  Detail strings, issue strings and the summary fields
are omitted; the checks' `pass` flags and `compliant` are modelled.
-/

/-- A room of the layout dict: `name`, `room_type`, `area`, `width`,
`length` and `position {x, y}`. -/
structure VRoom where
  name : String
  room_type : String
  area : ℚ
  width : ℚ
  vlength : ℚ
  posx : ℚ
  posy : ℚ
deriving DecidableEq

/-- A layout dict: the room list and the plot's width/length. -/
structure Layout where
  rooms : List VRoom
  plotWidth : ℚ
  plotLength : ℚ
deriving DecidableEq

/-- The `min_sizes` table of `_fallback_validate` (0 for other types). -/
def minSize (rtype : String) : ℚ :=
  if rtype = "bedroom" then 100
  else if rtype = "master_bedroom" then 100
  else if rtype = "bathroom" then 35
  else if rtype = "kitchen" then 80
  else if rtype = "living" then 120
  else 0

/-- Sum of the rooms' declared areas (`total_used`). -/
def totalUsed (l : Layout) : ℚ := (l.rooms.map VRoom.area).sum

/-- The plot area `plot.width * plot.length`. -/
def plotArea (l : Layout) : ℚ := l.plotWidth * l.plotLength

/-- The `area_overflow` check: total used area at most the plot area. -/
def areaOverflowPass (l : Layout) : Bool := totalUsed l ≤ plotArea l

/-- The `minimum_sizes` check: every room at least its type's minimum. -/
def minimumSizesPass (l : Layout) : Bool :=
  l.rooms.all fun r => minSize r.room_type ≤ r.area

/-- Proportion test for one room, from the `proportions` loop body: the
narrower dimension must not be under 4 and `max(w,l)/max(min(w,l),1)`
must not exceed 3. -/
def roomPropOk (r : VRoom) : Bool :=
  !(min r.width r.vlength < 4 : Bool) &&
    !(3 < max r.width r.vlength / max (min r.width r.vlength) 1 : Bool)

/-- The `proportions` check over all rooms. -/
def proportionsPass (l : Layout) : Bool := l.rooms.all roomPropOk

/-- Axis-aligned bounding-box overlap test between two rooms, from the
overlap loop body. -/
def overlapPair (r1 r2 : VRoom) : Bool :=
  (r1.posx < r2.posx + r2.width : Bool) && (r2.posx < r1.posx + r1.width : Bool) &&
    (r1.posy < r2.posy + r2.vlength : Bool) && (r2.posy < r1.posy + r1.vlength : Bool)

/-- The `overlapping_rooms` check: no pair `i < j` overlaps. -/
def noOverlapList : List VRoom → Bool
  | [] => true
  | r :: rest => rest.all (fun r2 => !overlapPair r r2) && noOverlapList rest

/-- The six named `pass` flags of the local check battery. -/
structure CheckSet where
  area_overflow : Bool
  minimum_sizes : Bool
  proportions : Bool
  overlapping_rooms : Bool
  zoning : Bool
  circulation : Bool
deriving DecidableEq

/-- Embedding of the local check battery of `_fallback_validate`: the six
named checks (zoning and circulation trivially pass) and `compliant`,
the conjunction of all six `pass` flags. -/
def fallback_validate (l : Layout) : CheckSet × Bool :=
  let checks : CheckSet :=
    ⟨areaOverflowPass l, minimumSizesPass l, proportionsPass l,
      noOverlapList l.rooms, true, true⟩
  (checks, checks.area_overflow && checks.minimum_sizes && checks.proportions &&
    checks.overlapping_rooms && checks.zoning && checks.circulation)

/-- C5: whenever the rooms' declared areas sum to more than the plot area,
the `area_overflow` check fails and `compliant` — the AND of all six
checks — is false. -/
theorem fallback_validate_area_overflow (l : Layout) (h : plotArea l < totalUsed l) :
    (fallback_validate l).1.area_overflow = false ∧ (fallback_validate l).2 = false := by
  have hfail : areaOverflowPass l = false := by
    simp [areaOverflowPass, not_le.mpr h]
  constructor
  · simpa [fallback_validate] using hfail
  · simp [fallback_validate, hfail]

/-- The C5 example layout: one 20 × 20 room of declared area 400 on a
10 × 10 plot. -/
def layoutC5 : Layout := ⟨[⟨"Living Room", "living", 400, 20, 20, 0, 0⟩], 10, 10⟩

/-- Witness for C5: the single 400 sq ft room on the 100 sq ft plot fails
`area_overflow` and makes the layout non-compliant. -/
theorem fallback_validate_area_overflow_witness :
    plotArea layoutC5 < totalUsed layoutC5 ∧
    (fallback_validate layoutC5).1.area_overflow = false ∧
    (fallback_validate layoutC5).2 = false := by
  have h : plotArea layoutC5 < totalUsed layoutC5 := by
    norm_num [plotArea, totalUsed, layoutC5]
  exact ⟨h, fallback_validate_area_overflow layoutC5 h⟩

/-- The C6 counterexample layout: a single 5 × 5 bedroom. -/
def layoutC6 : Layout := ⟨[⟨"Bedroom", "bedroom", 100, 5, 5, 0, 0⟩], 30, 40⟩

/-- C6 counterexample: a 5 × 5 room is narrower than 6 ft, yet the
`proportions` check passes — the code's narrowness threshold is 4 ft,
not the claimed 6 ft. -/
theorem proportions_claim_counterexample :
    min (5 : ℚ) 5 < 6 ∧ (fallback_validate layoutC6).1.proportions = true := by
  constructor
  · norm_num
  · norm_num [fallback_validate, proportionsPass, roomPropOk, layoutC6]

/-- C6 (amended): every room whose narrower dimension is less than 4 ft,
or whose aspect ratio (longer over shorter) exceeds 3:1, causes the
`proportions` check to report `pass == false`. -/
theorem proportions_amended_ok (l : Layout) (r : VRoom) (hr : r ∈ l.rooms)
    (h : min r.width r.vlength < 4 ∨ 3 * min r.width r.vlength < max r.width r.vlength) :
    (fallback_validate l).1.proportions = false := by
  have hbad : roomPropOk r = false := by
    rcases h with hnarrow | hrat
    · simp [roomPropOk, hnarrow]
    · by_cases hnarrow : min r.width r.vlength < 4
      · simp [roomPropOk, hnarrow]
      · have hmin4 : (4 : ℚ) ≤ min r.width r.vlength := not_lt.mp hnarrow
        have hclamp : max (min r.width r.vlength) 1 = min r.width r.vlength := by
          apply max_eq_left
          linarith
        have hminpos : (0 : ℚ) < min r.width r.vlength := by linarith
        have hgt : 3 < max r.width r.vlength / max (min r.width r.vlength) 1 := by
          rw [hclamp, lt_div_iff₀ hminpos]
          linarith
        simp [roomPropOk, hgt]
  have : proportionsPass l = false := by
    simp only [proportionsPass]
    rw [List.all_eq_false]
    exact ⟨r, hr, by simp [hbad]⟩
  simpa [fallback_validate] using this

/-- The C6 amended-claim witness layout: a single 3 × 10 room. -/
def layoutC6w : Layout := ⟨[⟨"Store Room", "store", 30, 3, 10, 0, 0⟩], 30, 40⟩

/-- Witness for the amended C6: a 3 × 10 room (narrower than 4 ft) fails
the `proportions` check. -/
theorem proportions_amended_ok_witness :
    (⟨"Store Room", "store", 30, 3, 10, 0, 0⟩ : VRoom) ∈ layoutC6w.rooms ∧
    (min (3 : ℚ) 10 < 4 ∨ 3 * min (3 : ℚ) 10 < max (3 : ℚ) 10) ∧
    (fallback_validate layoutC6w).1.proportions = false := by
  have hmem : (⟨"Store Room", "store", 30, 3, 10, 0, 0⟩ : VRoom) ∈ layoutC6w.rooms := by
    simp [layoutC6w]
  have hdim : min (3 : ℚ) 10 < 4 ∨ 3 * min (3 : ℚ) 10 < max (3 : ℚ) 10 := by
    left
    norm_num
  exact ⟨hmem, hdim, proportions_amended_ok layoutC6w _ hmem (by simpa using hdim)⟩

end Plot2Plan.Pipeline

namespace Plot2Plan.Chat

/-!
Embedding of `_fallback_chat` and `_extract_number` from
`backend/services/chat.py`.  Messages are lists of characters so that
Python's substring test `kw in msg_lower` can be modelled exactly.
-/

/-- A history entry; only its `role` field is read. -/
structure HistEntry where
  role : String
deriving DecidableEq

/-- Does `hay` start with `needle`? -/
def startsWithL : List Char → List Char → Bool
  | [], _ => true
  | _ :: _, [] => false
  | n :: ns, h :: hs => n == h && startsWithL ns hs

/-- Python's substring test `needle in hay`. -/
def containsSub : List Char → List Char → Bool
  | [], needle => needle.isEmpty
  | h :: hs, needle => startsWithL needle (h :: hs) || containsSub hs needle

/-- Embedding of `_extract_number`: the first maximal digit run of the
text as a number, if any (`re.search(r'\d+', text)`). -/
def extractNumber (cs : List Char) : Option ℕ :=
  let rest := cs.dropWhile fun c => !c.isDigit
  if rest = [] then none
  else some ((rest.takeWhile Char.isDigit).foldl (fun n c => 10 * n + (c.toNat - 48)) 0)

/-- Python truthiness of `num if num else default`: `None` and `0` both
fall back to the default. -/
def numOrDefault (num : Option ℕ) (default : ℕ) : ℕ :=
  match num with
  | some n => if n ≠ 0 then n else default
  | none => default

/-- Structured data extracted by `_fallback_chat` at the various turns. -/
inductive Extracted where
  | areaInfo (total_area : ℕ)
  | bedroomsInfo (n : ℕ)
  | bathroomsInfo (n : ℕ)
  | specialRooms (rooms : List String)
  | readyToGenerate
deriving DecidableEq

/-- Return value of `_fallback_chat`. -/
structure ChatResult where
  reply : String
  extracted_data : Option Extracted
  should_generate : Bool
deriving DecidableEq

/-- Number of prior user turns: history entries whose role is "user". -/
def userTurns (history : List HistEntry) : ℕ :=
  (history.filter fun h => h.role = "user").length

/-- The generation keywords of the `turn ≥ 5` branch. -/
def genKeywords : List (List Char) :=
  ["generate".toList, "create".toList, "build".toList, "make".toList, "yes".toList]

/-- Embedding of `_fallback_chat`: the staged rule-based chatbot, keyed on
the number of prior user turns. -/
def fallback_chat (message : List Char) (history : List HistEntry) : ChatResult :=
  let msgLower := message.map Char.toLower
  let turn := userTurns history
  if turn = 0 then
    ⟨"Welcome! I\x27ll help you design your floor plan. What\x27s the total area of your plot (in sq ft)?",
      none, false⟩
  else if turn = 1 then
    let area := numOrDefault (extractNumber message) 1200
    ⟨"Got it, " ++ toString area ++ " sq ft! Got it! How many bedrooms do you need?",
      some (.areaInfo area), false⟩
  else if turn = 2 then
    let bedrooms := numOrDefault (extractNumber message) 2
    ⟨toString bedrooms ++ " bedroom(s). How many bathrooms?",
      some (.bedroomsInfo bedrooms), false⟩
  else if turn = 3 then
    let bathrooms := numOrDefault (extractNumber message) 1
    ⟨toString bathrooms ++ " bathroom(s). Do you need any special rooms? (study, pooja room, store room, garage)",
      some (.bathroomsInfo bathrooms), false⟩
  else if turn = 4 then
    let rooms :=
      (if containsSub msgLower "study".toList then ["study"] else []) ++
      (if containsSub msgLower "pooja".toList then ["pooja"] else []) ++
      (if containsSub msgLower "store".toList then ["store"] else []) ++
      (if containsSub msgLower "garage".toList then ["garage"] else [])
    ⟨"Great! Do you have a boundary sketch to upload? You can also type \x27generate\x27 to create the plan with a rectangular boundary.",
      if rooms ≠ [] then some (.specialRooms rooms) else none, false⟩
  else
    if genKeywords.any fun kw => containsSub msgLower kw then
      ⟨"Generating your floor plan now!", some .readyToGenerate, true⟩
    else
      ⟨"Would you like me to generate the floor plan? Type \x27generate\x27 when ready.",
        none, false⟩

/-- C9: with at least five prior user turns, `should_generate` is true
exactly when the lower-cased message contains one of "generate",
"create", "build", "make", "yes"; with fewer than five prior user turns
it is false. -/
theorem fallback_chat_should_generate (message : List Char) (history : List HistEntry) :
    (5 ≤ userTurns history →
      ((fallback_chat message history).should_generate = true ↔
        (genKeywords.any fun kw =>
          containsSub (message.map Char.toLower) kw) = true)) ∧
    (userTurns history < 5 →
      (fallback_chat message history).should_generate = false) := by
  constructor
  · intro h5
    have h0 : ¬ userTurns history = 0 := by omega
    have h1 : ¬ userTurns history = 1 := by omega
    have h2 : ¬ userTurns history = 2 := by omega
    have h3 : ¬ userTurns history = 3 := by omega
    have h4 : ¬ userTurns history = 4 := by omega
    by_cases hany : (genKeywords.any fun kw =>
        containsSub (message.map Char.toLower) kw) = true
    · simp [fallback_chat, h0, h1, h2, h3, h4, hany]
    · simp [fallback_chat, h0, h1, h2, h3, h4, hany]
  · intro hlt
    have : userTurns history = 0 ∨ userTurns history = 1 ∨ userTurns history = 2 ∨
        userTurns history = 3 ∨ userTurns history = 4 := by omega
    rcases this with h | h | h | h | h <;> simp [fallback_chat, h]

/-- Witness for C9: with five prior user turns the message "yes please"
triggers generation, and with an empty history it does not. -/
theorem fallback_chat_should_generate_witness :
    (5 ≤ userTurns (List.replicate 5 ⟨"user"⟩) ∧
      ((fallback_chat "yes please".toList (List.replicate 5 ⟨"user"⟩)).should_generate = true ↔
        (genKeywords.any fun kw =>
          containsSub ("yes please".toList.map Char.toLower) kw) = true)) ∧
    (userTurns [] < 5 ∧
      (fallback_chat "yes please".toList []).should_generate = false) := by
  have ha : 5 ≤ userTurns (List.replicate 5 (⟨"user"⟩ : HistEntry)) := by
    simp [userTurns]
  have hb : userTurns [] < 5 := by
    simp [userTurns]
  exact ⟨⟨ha, (fallback_chat_should_generate "yes please".toList
      (List.replicate 5 ⟨"user"⟩)).1 ha⟩,
    ⟨hb, (fallback_chat_should_generate "yes please".toList []).2 hb⟩⟩

end Plot2Plan.Chat

namespace Plot2Plan.Floorplan

/-!
Embedding of `backend/services/floorplan.py`: `_compute_room_targets`,
`_split_rect`, `_bsp_partition` and the room-list construction of
`generate_floor_plan`.  The shapely clipping of a leaf rectangle against
the boundary polygon (`bounding_rect.intersection(boundary)` with its
empty-result fallback and MultiPolygon handling) is abstracted as a
function `clip` into an arbitrary polygon type `P`; it produces exactly
one polygon per leaf, whatever the geometry, which is all the room-count
claim needs.
-/

/-- A requested room entry `{room_type, quantity, desired_area}`. -/
structure RoomReq where
  room_type : String
  quantity : ℕ
  desired_area : Option ℚ

/-- The `ROOM_DEFAULTS` table: default area, aspect and label per type
(falling back to the `other` entry). -/
def roomDefaults (rtype : String) : ℚ × ℚ × String :=
  if rtype = "master_bedroom" then (200, 3/2, "Master Bedroom")
  else if rtype = "bedroom" then (150, 3/2, "Bedroom")
  else if rtype = "bathroom" then (50, 1, "Bathroom")
  else if rtype = "kitchen" then (150, 6/5, "Kitchen")
  else if rtype = "living" then (250, 13/10, "Living Room")
  else if rtype = "dining" then (120, 6/5, "Dining Room")
  else if rtype = "study" then (100, 6/5, "Study")
  else if rtype = "garage" then (200, 3/2, "Garage")
  else if rtype = "hallway" then (60, 3, "Hallway")
  else if rtype = "balcony" then (40, 2, "Balcony")
  else if rtype = "pooja" then (30, 1, "Pooja Room")
  else if rtype = "store" then (40, 1, "Store Room")
  else (80, 6/5, "Room")

/-- One expanded room target of `_compute_room_targets`. -/
structure RoomTarget where
  room_type : String
  label : String
  target_area : ℚ
  aspect : ℚ

/-- Expansion of one request into `quantity` individual targets
(the inner `for i in range(qty)` loop). -/
def expandOne (room : RoomReq) : List RoomTarget :=
  let d := roomDefaults room.room_type
  (List.range room.quantity).map fun i =>
    let label := if 1 < room.quantity then d.2.2 ++ " " ++ toString (i + 1) else d.2.2
    let target :=
      match room.desired_area with
      | some a => if a ≠ 0 then a else d.1
      | none => d.1
    ⟨room.room_type, label, target, d.2.1⟩

/-- Expansion of all requests, in order. -/
def expandRequests : List RoomReq → List RoomTarget
  | [] => []
  | room :: rest => expandOne room ++ expandRequests rest

/-- Stable descending insertion by key (models one step of Python's
stable `list.sort(key=..., reverse=True)`). -/
def insertDescBy (key : RoomTarget → ℚ) (x : RoomTarget) : List RoomTarget → List RoomTarget
  | [] => [x]
  | y :: ys => if key x ≤ key y then y :: insertDescBy key x ys else x :: y :: ys

/-- Stable descending sort by key. -/
def sortDescBy (key : RoomTarget → ℚ) (l : List RoomTarget) : List RoomTarget :=
  l.foldl (fun acc x => insertDescBy key x acc) []

/-- Embedding of `_compute_room_targets`: expand the requests, rescale all
targets so they sum to 85 % of the total area (rounding each to one
decimal, Python-style), and sort largest-first. -/
def compute_room_targets (reqs : List RoomReq) (total_area : ℚ) : List RoomTarget :=
  let result := expandRequests reqs
  let usable := total_area * (85/100)
  let total_target := (result.map RoomTarget.target_area).sum
  let scaled :=
    if 0 < total_target then
      result.map fun r =>
        (⟨r.room_type, r.label, pyRound (r.target_area * (usable / total_target)) 1,
          r.aspect⟩ : RoomTarget)
    else result
  sortDescBy RoomTarget.target_area scaled

/-- An axis-aligned rectangle, as `shapely.geometry.box` bounds. -/
structure FRect where
  minx : ℚ
  miny : ℚ
  maxx : ℚ
  maxy : ℚ

/-- Embedding of `_split_rect`: split a rectangle at the given fraction,
vertically or horizontally. -/
def split_rect (rect : FRect) (frac : ℚ) (split_vertical : Bool) : FRect × FRect :=
  let w := rect.maxx - rect.minx
  let h := rect.maxy - rect.miny
  if split_vertical then
    let sx := rect.minx + w * frac
    (⟨rect.minx, rect.miny, sx, rect.maxy⟩, ⟨sx, rect.miny, rect.maxx, rect.maxy⟩)
  else
    let sy := rect.miny + h * frac
    (⟨rect.minx, rect.miny, rect.maxx, sy⟩, ⟨rect.minx, sy, rect.maxx, rect.maxy⟩)

/-- Embedding of `_bsp_partition`: recursively split the bounding
rectangle, allocating the first half of the targets (by list midpoint) to
one side and the rest to the other; a single target receives the clipped
rectangle. -/
def bsp_partition {P : Type} (clip : FRect → P) :
    FRect → List RoomTarget → List (RoomTarget × P)
  | _, [] => []
  | bounding, [t] => [(t, clip bounding)]
  | bounding, t1 :: t2 :: rest =>
    let targets := t1 :: t2 :: rest
    let total := (targets.map RoomTarget.target_area).sum
    let mid := targets.length / 2
    let area_a := ((targets.take mid).map RoomTarget.target_area).sum
    let frac := if 0 < total then area_a / total else 1/2
    let w := bounding.maxx - bounding.minx
    let h := bounding.maxy - bounding.miny
    let split_vertical : Bool := h ≤ w
    let p := split_rect bounding frac split_vertical
    bsp_partition clip p.1 (targets.take mid) ++ bsp_partition clip p.2 (targets.drop mid)
termination_by _ targets => targets.length
decreasing_by
  · simp [List.length_take]
    omega
  · simp
    omega

/-- One entry of the `rooms` list built at the end of
`generate_floor_plan` (the shapely-derived `actual_area`, coordinate list
and centroid are omitted). -/
structure PlanRoom (P : Type) where
  label : String
  room_type : String
  target_area : ℚ
  polygon : P

/-- The `rooms` list of `generate_floor_plan`: room targets from the
requests, BSP partition over the boundary's bounding rectangle, one plan
room per partition entry. -/
def generate_floor_plan_rooms {P : Type} (clip : FRect → P) (bounding : FRect)
    (reqs : List RoomReq) (total_area : ℚ) : List (PlanRoom P) :=
  let room_targets := compute_room_targets reqs total_area
  let room_results := bsp_partition clip bounding room_targets
  room_results.map fun res => ⟨res.1.label, res.1.room_type, res.1.target_area, res.2⟩

lemma insertDescBy_length (key : RoomTarget → ℚ) (x : RoomTarget) (l : List RoomTarget) :
    (insertDescBy key x l).length = l.length + 1 := by
  induction l with
  | nil => rfl
  | cons y ys ih =>
    unfold insertDescBy
    split_ifs
    · simp [ih]
    · simp

lemma sortDescBy_length (key : RoomTarget → ℚ) (l : List RoomTarget) :
    (sortDescBy key l).length = l.length := by
  suffices h : ∀ acc : List RoomTarget,
      (l.foldl (fun acc x => insertDescBy key x acc) acc).length = acc.length + l.length by
    simpa using h []
  induction l with
  | nil => intro acc; simp
  | cons x xs ih =>
    intro acc
    simp only [List.foldl_cons]
    rw [ih (insertDescBy key x acc), insertDescBy_length]
    simp only [List.length_cons]
    omega

lemma expandRequests_length (reqs : List RoomReq) :
    (expandRequests reqs).length = (reqs.map RoomReq.quantity).sum := by
  induction reqs with
  | nil => rfl
  | cons room rest ih =>
    simp [expandRequests, expandOne, ih]

lemma compute_room_targets_length (reqs : List RoomReq) (total_area : ℚ) :
    (compute_room_targets reqs total_area).length = (reqs.map RoomReq.quantity).sum := by
  unfold compute_room_targets
  rw [sortDescBy_length]
  split_ifs
  · simp [expandRequests_length]
  · exact expandRequests_length reqs

lemma bsp_partition_length_aux {P : Type} (clip : FRect → P) :
    ∀ (n : ℕ) (targets : List RoomTarget) (bounding : FRect), targets.length ≤ n →
      (bsp_partition clip bounding targets).length = targets.length := by
  intro n
  induction n with
  | zero =>
    intro targets bounding h
    have hnil : targets = [] := List.length_eq_zero.mp (Nat.le_zero.mp h)
    subst hnil
    simp [bsp_partition]
  | succ n ih =>
    intro targets bounding h
    match targets with
    | [] => simp [bsp_partition]
    | [t] => simp [bsp_partition]
    | t1 :: t2 :: rest =>
      have hlen : (t1 :: t2 :: rest).length = rest.length + 2 := by simp
      have hmidtake : ((t1 :: t2 :: rest).take ((t1 :: t2 :: rest).length / 2)).length ≤ n := by
        simp only [List.length_take, hlen]
        have h' : rest.length + 2 ≤ n + 1 := hlen ▸ h
        omega
      have hmiddrop : ((t1 :: t2 :: rest).drop ((t1 :: t2 :: rest).length / 2)).length ≤ n := by
        simp only [List.length_drop, hlen]
        have h' : rest.length + 2 ≤ n + 1 := hlen ▸ h
        omega
      simp only [bsp_partition, List.length_append]
      rw [ih _ _ hmidtake, ih _ _ hmiddrop]
      simp only [List.length_take, List.length_drop, List.length_cons]
      omega

lemma bsp_partition_length {P : Type} (clip : FRect → P) (bounding : FRect)
    (targets : List RoomTarget) :
    (bsp_partition clip bounding targets).length = targets.length :=
  bsp_partition_length_aux clip targets.length targets bounding (le_refl _)

/-- C10: the BSP floor-plan generator produces exactly one room entry per
requested room instance — the rooms list has length equal to the sum of
the requests' quantities, for any boundary bounding rectangle and any
clipping geometry. -/
theorem generate_floor_plan_room_count {P : Type} (clip : FRect → P) (bounding : FRect)
    (reqs : List RoomReq) (total_area : ℚ) :
    (generate_floor_plan_rooms clip bounding reqs total_area).length =
      (reqs.map RoomReq.quantity).sum := by
  unfold generate_floor_plan_rooms
  rw [List.length_map, bsp_partition_length, compute_room_targets_length]

end Plot2Plan.Floorplan

namespace Plot2Plan.Treemap

/-!
Embedding of `backend/services/layout_engine/treemap.py`: the `_Rect`
class, `_mean_aspect_error`, `_place_zone`, `subdivide` and
`treemap_subdivide`.  `float('inf')` (the initial best error and the
aspect error of a degenerate rectangle) is `⊤ : WithTop ℚ`.
`_Rect.to_polygon` is `shapely.box` on the same four corner
coordinates, so sub-rectangles stand for their polygons directly.
-/

/-- The `_Rect` class: an axis-aligned rectangle given by two corners. -/
structure TRect where
  x1 : ℚ
  y1 : ℚ
  x2 : ℚ
  y2 : ℚ
deriving DecidableEq

/-- The `width` property: `abs(x2 - x1)`. -/
def TRect.width (r : TRect) : ℚ := |r.x2 - r.x1|

/-- The `height` property: `abs(y2 - y1)`. -/
def TRect.height (r : TRect) : ℚ := |r.y2 - r.y1|

/-- The `area` property: `width * height`. -/
def TRect.area (r : TRect) : ℚ := r.width * r.height

/-- The `is_horizontal` property: `width >= height`. -/
def TRect.isHorizontal (r : TRect) : Bool := r.height ≤ r.width

/-- The `aspect_ratio` property: `max(w/h, h/w) - 1`, infinite when a
side is degenerate. -/
def TRect.aspectErr (r : TRect) : WithTop ℚ :=
  if r.height = 0 ∨ r.width = 0 then ⊤
  else ((max (r.width / r.height) (r.height / r.width) - 1 : ℚ) : WithTop ℚ)

/-- The `split_horizontal` method: cut with a vertical line so the left
piece has the given area (`w = area / height if height else 0`). -/
def TRect.split_horizontal (r : TRect) (area : ℚ) : TRect × TRect :=
  let w := if r.height = 0 then 0 else area / r.height
  (⟨r.x1, r.y1, r.x1 + w, r.y2⟩, ⟨r.x1 + w, r.y1, r.x2, r.y2⟩)

/-- The `split_vertical` method: cut with a horizontal line so the bottom
piece has the given area (`h = area / width if width else 0`). -/
def TRect.split_vertical (r : TRect) (area : ℚ) : TRect × TRect :=
  let h := if r.width = 0 then 0 else area / r.width
  (⟨r.x1, r.y1, r.x2, r.y1 + h⟩, ⟨r.x1, r.y1 + h, r.x2, r.y2⟩)

/-- The `split_auto` method. -/
def TRect.split_auto (r : TRect) (area : ℚ) : TRect × TRect :=
  if r.isHorizontal then r.split_horizontal area else r.split_vertical area

/-- Embedding of `_mean_aspect_error`. -/
def meanAspectErr (rects : List TRect) : WithTop ℚ :=
  if rects = [] then 0
  else WithTop.map (fun s => s / (rects.length : ℚ)) (rects.map TRect.aspectErr).sum

/-- The inner strip-slicing loop of `_place_zone`: successively cut each
area off the strip, against the outer rectangle's orientation
(`split_vertical` when the outer rectangle is horizontal,
`split_horizontal` otherwise). -/
def zoneRoomsGo : Bool → TRect → List ℚ → List TRect
  | _, _, [] => []
  | true, cur, a :: rest =>
    let p := cur.split_vertical a
    p.1 :: zoneRoomsGo true p.2 rest
  | false, cur, a :: rest =>
    let p := cur.split_horizontal a
    p.1 :: zoneRoomsGo false p.2 rest

/-- The candidate of `_place_zone` at strip size `i`: the strip's rooms
and the leftover rectangle. -/
def zoneCandidate (r : TRect) (areas : List ℚ) (i : ℕ) : List TRect × TRect :=
  let zone_areas := areas.take i
  let p := r.split_auto zone_areas.sum
  (zoneRoomsGo r.isHorizontal p.1 zone_areas, p.2)

/-- The `for i in range(1, len(areas) + 1)` loop of `_place_zone`, with
its early break as soon as the error increases. -/
def placeZoneGo (r : TRect) (areas : List ℚ) :
    List ℕ → WithTop ℚ → Option (List TRect × TRect) → Option (List TRect × TRect)
  | [], _, best => best
  | i :: rest, bestErr, best =>
    let cand := zoneCandidate r areas i
    let err := meanAspectErr cand.1
    if bestErr < err then best
    else placeZoneGo r areas rest err (some cand)

/-- Embedding of `_place_zone` (`best_rooms or []`, `best_leftover or
self` recover the not-yet-set case). -/
def TRect.place_zone (r : TRect) (areas : List ℚ) : List TRect × TRect :=
  match placeZoneGo r areas (List.range' 1 areas.length) ⊤ none with
  | some q => q
  | none => ([], r)

lemma zoneRoomsGo_length (horiz : Bool) :
    ∀ (cur : TRect) (l : List ℚ), (zoneRoomsGo horiz cur l).length = l.length := by
  intro cur l
  induction l generalizing cur with
  | nil => cases horiz <;> rfl
  | cons a rest ih => cases horiz <;> simp [zoneRoomsGo, ih]

lemma placeZoneGo_some_spec (r : TRect) (areas : List ℚ) :
    ∀ (is : List ℕ) (bestErr : WithTop ℚ) (c : List TRect × TRect),
      ∃ q, placeZoneGo r areas is bestErr (some c) = some q ∧
        (q = c ∨ ∃ i ∈ is, q = zoneCandidate r areas i) := by
  intro is
  induction is with
  | nil =>
    intro bestErr c
    exact ⟨c, rfl, Or.inl rfl⟩
  | cons i rest ih =>
    intro bestErr c
    rw [placeZoneGo]
    split_ifs with hbreak
    · exact ⟨c, rfl, Or.inl rfl⟩
    · rcases ih (meanAspectErr (zoneCandidate r areas i).1) (zoneCandidate r areas i) with
        ⟨q, hq, hspec⟩
      refine ⟨q, hq, Or.inr ?_⟩
      rcases hspec with rfl | ⟨j, hj, rfl⟩
      · exact ⟨i, List.mem_cons_self i rest, rfl⟩
      · exact ⟨j, List.mem_cons_of_mem i hj, rfl⟩

lemma place_zone_spec (r : TRect) (areas : List ℚ) (h : areas ≠ []) :
    ∃ i, 1 ≤ i ∧ i ≤ areas.length ∧ r.place_zone areas = zoneCandidate r areas i := by
  have hn : areas.length = (areas.length - 1) + 1 := by
    have := List.length_pos.mpr h
    omega
  unfold TRect.place_zone
  rw [hn]
  have hcons : List.range' 1 ((areas.length - 1) + 1) = 1 :: List.range' 2 (areas.length - 1) := by
    simp [List.range']
  rw [hcons, placeZoneGo]
  have hnotlt : ¬ (⊤ : WithTop ℚ) < meanAspectErr (zoneCandidate r areas 1).1 := not_top_lt
  rw [if_neg hnotlt]
  rcases placeZoneGo_some_spec r areas (List.range' 2 (areas.length - 1))
      (meanAspectErr (zoneCandidate r areas 1).1) (zoneCandidate r areas 1) with ⟨q, hq, hspec⟩
  rw [hq]
  rcases hspec with rfl | ⟨j, hj, rfl⟩
  · exact ⟨1, le_refl 1, by omega, rfl⟩
  · rcases List.mem_range'_1.mp hj with ⟨hj1, hj2⟩
    exact ⟨j, by omega, by omega, rfl⟩

lemma place_zone_length_pos (r : TRect) (areas : List ℚ) (h : areas ≠ []) :
    1 ≤ (r.place_zone areas).1.length ∧ (r.place_zone areas).1.length ≤ areas.length := by
  rcases place_zone_spec r areas h with ⟨i, hi1, hi2, heq⟩
  rw [heq]
  have : (zoneCandidate r areas i).1.length = (areas.take i).length := by
    simp [zoneCandidate, zoneRoomsGo_length]
  rw [this, List.length_take]
  constructor
  · have := List.length_pos.mpr h
    omega
  · omega

/-- Embedding of `_Rect.subdivide`: place a strip, recurse on the
leftover rectangle with the remaining areas. -/
def TRect.subdivide (r : TRect) (areas : List ℚ) : List TRect :=
  if h : areas = [] then []
  else
    let pz := r.place_zone areas
    let remaining := areas.drop pz.1.length
    if remaining = [] then pz.1
    else pz.1 ++ pz.2.subdivide remaining
termination_by areas.length
decreasing_by
  simp only [List.length_drop]
  have h1 := place_zone_length_pos r areas h
  have h2 := List.length_pos.mpr h
  omega

/-- Embedding of `treemap_subdivide`: rescale the desired areas to the
rectangle's area and subdivide the bounding rectangle. -/
def treemap_subdivide (width height : ℚ) (areas : List ℚ)
    (origin_x origin_y : ℚ) : List TRect :=
  let total_rect_area := width * height
  let total_wanted := if areas = [] then 1 else areas.sum
  let scale := total_rect_area / total_wanted
  let scaled := areas.map fun a => a * scale
  let bounding : TRect := ⟨origin_x, origin_y, origin_x + width, origin_y + height⟩
  bounding.subdivide scaled

lemma TRect.width_eq {r : TRect} (h : r.x1 ≤ r.x2) : r.width = r.x2 - r.x1 :=
  abs_of_nonneg (by linarith)

lemma TRect.height_eq {r : TRect} (h : r.y1 ≤ r.y2) : r.height = r.y2 - r.y1 :=
  abs_of_nonneg (by linarith)

lemma TRect.area_eq {r : TRect} (hx : r.x1 ≤ r.x2) (hy : r.y1 ≤ r.y2) :
    r.area = (r.x2 - r.x1) * (r.y2 - r.y1) := by
  rw [TRect.area, TRect.width_eq hx, TRect.height_eq hy]

lemma zoneRoomsGo_true_sum :
    ∀ (l : List ℚ) (cur : TRect), cur.x1 < cur.x2 → cur.y1 ≤ cur.y2 →
      (∀ a ∈ l, 0 < a) → l.sum ≤ cur.area →
      ((zoneRoomsGo true cur l).map TRect.area).sum = l.sum := by
  intro l
  induction l with
  | nil => intro cur _ _ _ _; simp [zoneRoomsGo]
  | cons a rest ih =>
    intro cur hx hy hpos hsum
    have hW : (0:ℚ) < cur.x2 - cur.x1 := by linarith
    have hwidth : cur.width = cur.x2 - cur.x1 := TRect.width_eq (le_of_lt hx)
    have hwne : cur.width ≠ 0 := by rw [hwidth]; exact ne_of_gt hW
    have ha : 0 < a := hpos a (List.mem_cons_self a rest)
    have hrest : 0 ≤ rest.sum :=
      Plot2Plan.list_sum_nonneg rest fun x hxm => le_of_lt (hpos x (List.mem_cons_of_mem a hxm))
    have harea : cur.area = (cur.x2 - cur.x1) * (cur.y2 - cur.y1) :=
      TRect.area_eq (le_of_lt hx) hy
    have hsum' : a + rest.sum ≤ cur.area := by
      simpa using hsum
    have hale : a ≤ (cur.x2 - cur.x1) * (cur.y2 - cur.y1) := by
      rw [← harea]; linarith
    simp only [zoneRoomsGo, TRect.split_vertical, if_neg hwne, List.map_cons, List.sum_cons]
    set h0 := a / cur.width with hh0
    have hh0pos : 0 < h0 := by
      rw [hh0, hwidth]
      exact div_pos ha hW
    have hh0le : h0 ≤ cur.y2 - cur.y1 := by
      rw [hh0, hwidth, div_le_iff₀ hW]
      calc a ≤ (cur.x2 - cur.x1) * (cur.y2 - cur.y1) := hale
        _ = (cur.y2 - cur.y1) * (cur.x2 - cur.x1) := by ring
    have hmul : (cur.x2 - cur.x1) * h0 = a := by
      rw [hh0, hwidth]
      field_simp
    have hbot : TRect.area ⟨cur.x1, cur.y1, cur.x2, cur.y1 + h0⟩ = a := by
      have heq : TRect.area ⟨cur.x1, cur.y1, cur.x2, cur.y1 + h0⟩ =
          (cur.x2 - cur.x1) * (cur.y1 + h0 - cur.y1) :=
        TRect.area_eq (show cur.x1 ≤ cur.x2 from le_of_lt hx)
          (show cur.y1 ≤ cur.y1 + h0 by linarith)
      rw [heq]
      calc (cur.x2 - cur.x1) * (cur.y1 + h0 - cur.y1) = (cur.x2 - cur.x1) * h0 := by ring
        _ = a := hmul
    have htoparea : TRect.area ⟨cur.x1, cur.y1 + h0, cur.x2, cur.y2⟩ = cur.area - a := by
      have heq : TRect.area ⟨cur.x1, cur.y1 + h0, cur.x2, cur.y2⟩ =
          (cur.x2 - cur.x1) * (cur.y2 - (cur.y1 + h0)) :=
        TRect.area_eq (show cur.x1 ≤ cur.x2 from le_of_lt hx)
          (show cur.y1 + h0 ≤ cur.y2 by linarith)
      rw [heq, harea]
      nlinarith [hmul]
    have hrec : ((zoneRoomsGo true ⟨cur.x1, cur.y1 + h0, cur.x2, cur.y2⟩ rest).map
        TRect.area).sum = rest.sum := by
      apply ih
      · exact hx
      · show cur.y1 + h0 ≤ cur.y2
        linarith
      · intro x hxm; exact hpos x (List.mem_cons_of_mem a hxm)
      · rw [htoparea]; linarith
    rw [hbot, hrec]

lemma zoneRoomsGo_false_sum :
    ∀ (l : List ℚ) (cur : TRect), cur.y1 < cur.y2 → cur.x1 ≤ cur.x2 →
      (∀ a ∈ l, 0 < a) → l.sum ≤ cur.area →
      ((zoneRoomsGo false cur l).map TRect.area).sum = l.sum := by
  intro l
  induction l with
  | nil => intro cur _ _ _ _; simp [zoneRoomsGo]
  | cons a rest ih =>
    intro cur hy hx hpos hsum
    have hH : (0:ℚ) < cur.y2 - cur.y1 := by linarith
    have hheight : cur.height = cur.y2 - cur.y1 := TRect.height_eq (le_of_lt hy)
    have hhne : cur.height ≠ 0 := by rw [hheight]; exact ne_of_gt hH
    have ha : 0 < a := hpos a (List.mem_cons_self a rest)
    have hrest : 0 ≤ rest.sum :=
      Plot2Plan.list_sum_nonneg rest fun x hxm => le_of_lt (hpos x (List.mem_cons_of_mem a hxm))
    have harea : cur.area = (cur.x2 - cur.x1) * (cur.y2 - cur.y1) :=
      TRect.area_eq hx (le_of_lt hy)
    have hsum' : a + rest.sum ≤ cur.area := by
      simpa using hsum
    have hale : a ≤ (cur.x2 - cur.x1) * (cur.y2 - cur.y1) := by
      rw [← harea]; linarith
    simp only [zoneRoomsGo, TRect.split_horizontal, if_neg hhne, List.map_cons, List.sum_cons]
    set w0 := a / cur.height with hw0
    have hw0pos : 0 < w0 := by
      rw [hw0, hheight]
      exact div_pos ha hH
    have hw0le : w0 ≤ cur.x2 - cur.x1 := by
      rw [hw0, hheight, div_le_iff₀ hH]
      exact hale
    have hmul : w0 * (cur.y2 - cur.y1) = a := by
      rw [hw0, hheight]
      field_simp
    have hbot : TRect.area ⟨cur.x1, cur.y1, cur.x1 + w0, cur.y2⟩ = a := by
      have heq : TRect.area ⟨cur.x1, cur.y1, cur.x1 + w0, cur.y2⟩ =
          (cur.x1 + w0 - cur.x1) * (cur.y2 - cur.y1) :=
        TRect.area_eq (show cur.x1 ≤ cur.x1 + w0 by linarith)
          (show cur.y1 ≤ cur.y2 from le_of_lt hy)
      rw [heq]
      calc (cur.x1 + w0 - cur.x1) * (cur.y2 - cur.y1) = w0 * (cur.y2 - cur.y1) := by ring
        _ = a := hmul
    have htoparea : TRect.area ⟨cur.x1 + w0, cur.y1, cur.x2, cur.y2⟩ = cur.area - a := by
      have heq : TRect.area ⟨cur.x1 + w0, cur.y1, cur.x2, cur.y2⟩ =
          (cur.x2 - (cur.x1 + w0)) * (cur.y2 - cur.y1) :=
        TRect.area_eq (show cur.x1 + w0 ≤ cur.x2 by linarith)
          (show cur.y1 ≤ cur.y2 from le_of_lt hy)
      rw [heq, harea]
      nlinarith [hmul]
    have hrec : ((zoneRoomsGo false ⟨cur.x1 + w0, cur.y1, cur.x2, cur.y2⟩ rest).map
        TRect.area).sum = rest.sum := by
      apply ih
      · exact hy
      · show cur.x1 + w0 ≤ cur.x2
        linarith
      · intro x hxm; exact hpos x (List.mem_cons_of_mem a hxm)
      · rw [htoparea]; linarith
    rw [hbot, hrec]

lemma zoneCandidate_spec (r : TRect) (areas : List ℚ) (i : ℕ)
    (h1 : 1 ≤ i) (hpos : ∀ a ∈ areas, 0 < a) (hne : areas ≠ [])
    (hx : r.x1 < r.x2) (hy : r.y1 < r.y2) (harea : r.area = areas.sum) :
    ((zoneCandidate r areas i).1.map TRect.area).sum = (areas.take i).sum ∧
    (zoneCandidate r areas i).1.length = min i areas.length ∧
    (zoneCandidate r areas i).2.x1 ≤ (zoneCandidate r areas i).2.x2 ∧
    (zoneCandidate r areas i).2.y1 ≤ (zoneCandidate r areas i).2.y2 ∧
    (zoneCandidate r areas i).2.area = (areas.drop i).sum := by
  have htakene : areas.take i ≠ [] := by
    rw [Ne, List.take_eq_nil_iff]
    push_neg
    exact ⟨by omega, hne⟩
  have htakepos : ∀ a ∈ areas.take i, 0 < a := fun a ha => hpos a (List.take_subset i areas ha)
  have hztpos : 0 < (areas.take i).sum := List.sum_pos _ htakepos htakene
  have hsplit : (areas.take i).sum + (areas.drop i).sum = areas.sum :=
    List.sum_take_add_sum_drop areas i
  have hdropnn : 0 ≤ (areas.drop i).sum :=
    Plot2Plan.list_sum_nonneg _ fun a ha => le_of_lt (hpos a (List.drop_subset i areas ha))
  have hzthi : (areas.take i).sum ≤ r.area := by
    rw [harea]; linarith
  have hW : (0:ℚ) < r.x2 - r.x1 := by linarith
  have hH : (0:ℚ) < r.y2 - r.y1 := by linarith
  have hwidth : r.width = r.x2 - r.x1 := TRect.width_eq (le_of_lt hx)
  have hheight : r.height = r.y2 - r.y1 := TRect.height_eq (le_of_lt hy)
  have hrarea : r.area = (r.x2 - r.x1) * (r.y2 - r.y1) := TRect.area_eq (le_of_lt hx) (le_of_lt hy)
  set zt := (areas.take i).sum with hzt
  by_cases hhor : r.isHorizontal
  · -- split_auto = split_horizontal; strip sliced with split_vertical
    have hhne2 : r.height ≠ 0 := by rw [hheight]; exact ne_of_gt hH
    have hauto : r.split_auto zt = r.split_horizontal zt := by
      simp [TRect.split_auto, hhor]
    have hsh : r.split_horizontal zt =
        (⟨r.x1, r.y1, r.x1 + zt / r.height, r.y2⟩, ⟨r.x1 + zt / r.height, r.y1, r.x2, r.y2⟩) := by
      simp [TRect.split_horizontal, if_neg hhne2]
    have hcand : zoneCandidate r areas i =
        (zoneRoomsGo true ⟨r.x1, r.y1, r.x1 + zt / r.height, r.y2⟩ (areas.take i),
          ⟨r.x1 + zt / r.height, r.y1, r.x2, r.y2⟩) := by
      rw [zoneCandidate]
      rw [← hzt, hauto, hsh, hhor]
    set w0 := zt / r.height with hw0
    have hw0pos : 0 < w0 := by
      rw [hw0, hheight]
      exact div_pos hztpos hH
    have hw0le : w0 ≤ r.x2 - r.x1 := by
      rw [hw0, hheight, div_le_iff₀ hH]
      calc zt ≤ r.area := hzthi
        _ = (r.x2 - r.x1) * (r.y2 - r.y1) := hrarea
    have hmul : w0 * (r.y2 - r.y1) = zt := by
      rw [hw0, hheight]
      field_simp
    have hzonearea : TRect.area ⟨r.x1, r.y1, r.x1 + w0, r.y2⟩ = zt := by
      have heq : TRect.area ⟨r.x1, r.y1, r.x1 + w0, r.y2⟩ =
          (r.x1 + w0 - r.x1) * (r.y2 - r.y1) :=
        TRect.area_eq (show r.x1 ≤ r.x1 + w0 by linarith) (show r.y1 ≤ r.y2 from le_of_lt hy)
      rw [heq]
      calc (r.x1 + w0 - r.x1) * (r.y2 - r.y1) = w0 * (r.y2 - r.y1) := by ring
        _ = zt := hmul
    rw [hcand]
    refine ⟨?_, ?_, ?_, ?_, ?_⟩
    · apply zoneRoomsGo_true_sum
      · show r.x1 < r.x1 + w0
        linarith
      · show r.y1 ≤ r.y2
        exact le_of_lt hy
      · exact htakepos
      · rw [hzonearea]
    · simp [zoneRoomsGo_length, List.length_take]
    · show r.x1 + w0 ≤ r.x2
      linarith
    · show r.y1 ≤ r.y2
      exact le_of_lt hy
    · have heq : TRect.area ⟨r.x1 + w0, r.y1, r.x2, r.y2⟩ =
          (r.x2 - (r.x1 + w0)) * (r.y2 - r.y1) :=
        TRect.area_eq (show r.x1 + w0 ≤ r.x2 by linarith) (show r.y1 ≤ r.y2 from le_of_lt hy)
      rw [heq]
      have : (r.x2 - (r.x1 + w0)) * (r.y2 - r.y1) =
          (r.x2 - r.x1) * (r.y2 - r.y1) - w0 * (r.y2 - r.y1) := by ring
      rw [this, hmul, ← hrarea, harea]
      linarith
  · -- split_auto = split_vertical; strip sliced with split_horizontal
    have hwne2 : r.width ≠ 0 := by rw [hwidth]; exact ne_of_gt hW
    have hhorf : r.isHorizontal = false := by
      simpa using hhor
    have hauto : r.split_auto zt = r.split_vertical zt := by
      simp [TRect.split_auto, hhorf]
    have hsv : r.split_vertical zt =
        (⟨r.x1, r.y1, r.x2, r.y1 + zt / r.width⟩, ⟨r.x1, r.y1 + zt / r.width, r.x2, r.y2⟩) := by
      simp [TRect.split_vertical, if_neg hwne2]
    have hcand : zoneCandidate r areas i =
        (zoneRoomsGo false ⟨r.x1, r.y1, r.x2, r.y1 + zt / r.width⟩ (areas.take i),
          ⟨r.x1, r.y1 + zt / r.width, r.x2, r.y2⟩) := by
      rw [zoneCandidate]
      rw [← hzt, hauto, hsv, hhorf]
    set h0 := zt / r.width with hh0
    have hh0pos : 0 < h0 := by
      rw [hh0, hwidth]
      exact div_pos hztpos hW
    have hh0le : h0 ≤ r.y2 - r.y1 := by
      rw [hh0, hwidth, div_le_iff₀ hW]
      calc zt ≤ r.area := hzthi
        _ = (r.x2 - r.x1) * (r.y2 - r.y1) := hrarea
        _ = (r.y2 - r.y1) * (r.x2 - r.x1) := by ring
    have hmul : h0 * (r.x2 - r.x1) = zt := by
      rw [hh0, hwidth]
      field_simp
    have hzonearea : TRect.area ⟨r.x1, r.y1, r.x2, r.y1 + h0⟩ = zt := by
      have heq : TRect.area ⟨r.x1, r.y1, r.x2, r.y1 + h0⟩ =
          (r.x2 - r.x1) * (r.y1 + h0 - r.y1) :=
        TRect.area_eq (show r.x1 ≤ r.x2 from le_of_lt hx) (show r.y1 ≤ r.y1 + h0 by linarith)
      rw [heq]
      calc (r.x2 - r.x1) * (r.y1 + h0 - r.y1) = h0 * (r.x2 - r.x1) := by ring
        _ = zt := hmul
    rw [hcand]
    refine ⟨?_, ?_, ?_, ?_, ?_⟩
    · apply zoneRoomsGo_false_sum
      · show r.y1 < r.y1 + h0
        linarith
      · show r.x1 ≤ r.x2
        exact le_of_lt hx
      · exact htakepos
      · rw [hzonearea]
    · simp [zoneRoomsGo_length, List.length_take]
    · show r.x1 ≤ r.x2
      exact le_of_lt hx
    · show r.y1 + h0 ≤ r.y2
      linarith
    · have heq : TRect.area ⟨r.x1, r.y1 + h0, r.x2, r.y2⟩ =
          (r.x2 - r.x1) * (r.y2 - (r.y1 + h0)) :=
        TRect.area_eq (show r.x1 ≤ r.x2 from le_of_lt hx) (show r.y1 + h0 ≤ r.y2 by linarith)
      rw [heq]
      have : (r.x2 - r.x1) * (r.y2 - (r.y1 + h0)) =
          (r.x2 - r.x1) * (r.y2 - r.y1) - h0 * (r.x2 - r.x1) := by ring
      rw [this, hmul, ← hrarea, harea]
      linarith

lemma subdivide_eq (r : TRect) (areas : List ℚ) (h : areas ≠ []) :
    r.subdivide areas =
      if areas.drop (r.place_zone areas).1.length = [] then (r.place_zone areas).1
      else (r.place_zone areas).1 ++
        (r.place_zone areas).2.subdivide (areas.drop (r.place_zone areas).1.length) := by
  conv_lhs => rw [TRect.subdivide]
  rw [dif_neg h]

lemma subdivide_spec_aux :
    ∀ (n : ℕ) (areas : List ℚ) (r : TRect), areas.length ≤ n →
      (∀ a ∈ areas, 0 < a) → r.x1 < r.x2 → r.y1 < r.y2 → r.area = areas.sum →
      (r.subdivide areas).length = areas.length ∧
      ((r.subdivide areas).map TRect.area).sum = areas.sum := by
  intro n
  induction n with
  | zero =>
    intro areas r hlen _ _ _ _
    have hnil : areas = [] := List.length_eq_zero.mp (Nat.le_zero.mp hlen)
    subst hnil
    constructor
    · rw [TRect.subdivide]
      simp
    · rw [TRect.subdivide]
      simp
  | succ n ih =>
    intro areas r hlen hpos hx hy harea
    by_cases hne : areas = []
    · subst hne
      constructor
      · rw [TRect.subdivide]; simp
      · rw [TRect.subdivide]; simp
    · rcases place_zone_spec r areas hne with ⟨i, hi1, hi2, hpz⟩
      rcases zoneCandidate_spec r areas i hi1 hpos hne hx hy harea with
        ⟨hzsum, hzlen, hlx, hly, hlarea⟩
      have hlen' : (r.place_zone areas).1.length = i := by
        rw [hpz, hzlen]
        omega
      rw [subdivide_eq r areas hne, hlen']
      by_cases hrem : areas.drop i = []
      · rw [if_pos hrem]
        have hile : areas.length ≤ i := List.drop_eq_nil_iff.mp hrem
        have hieq : i = areas.length := by omega
        have htakeall : areas.take i = areas := List.take_of_length_le (by omega)
        constructor
        · rw [hpz, hzlen]; omega
        · rw [hpz, hzsum, htakeall]
      · rw [if_neg hrem]
        have hremlen : (areas.drop i).length = areas.length - i := List.length_drop i areas
        have hremlen' : (areas.drop i).length ≤ n := by
          have := List.length_pos.mpr hne
          omega
        have hrempos : ∀ a ∈ areas.drop i, 0 < a :=
          fun a ha => hpos a (List.drop_subset i areas ha)
        have hremsumpos : 0 < (areas.drop i).sum := List.sum_pos _ hrempos hrem
        have hlarea' : (r.place_zone areas).2.area = (areas.drop i).sum := by
          rw [hpz]; exact hlarea
        have hlx' : (r.place_zone areas).2.x1 ≤ (r.place_zone areas).2.x2 := by
          rw [hpz]; exact hlx
        have hly' : (r.place_zone areas).2.y1 ≤ (r.place_zone areas).2.y2 := by
          rw [hpz]; exact hly
        -- positive leftover area forces both sides strict
        have hwpos : 0 < (r.place_zone areas).2.x2 - (r.place_zone areas).2.x1 := by
          by_contra hcon
          push_neg at hcon
          have hw0 : (r.place_zone areas).2.width = (r.place_zone areas).2.x2 -
              (r.place_zone areas).2.x1 := TRect.width_eq hlx'
          have : (r.place_zone areas).2.area ≤ 0 := by
            rw [TRect.area, hw0]
            have hh : 0 ≤ (r.place_zone areas).2.height := abs_nonneg _
            nlinarith
          rw [hlarea'] at this
          linarith
        have hhpos : 0 < (r.place_zone areas).2.y2 - (r.place_zone areas).2.y1 := by
          by_contra hcon
          push_neg at hcon
          have hh0 : (r.place_zone areas).2.height = (r.place_zone areas).2.y2 -
              (r.place_zone areas).2.y1 := TRect.height_eq hly'
          have : (r.place_zone areas).2.area ≤ 0 := by
            rw [TRect.area, hh0]
            have hw : 0 ≤ (r.place_zone areas).2.width := abs_nonneg _
            nlinarith
          rw [hlarea'] at this
          linarith
        rcases ih (areas.drop i) (r.place_zone areas).2 hremlen' hrempos
          (by linarith) (by linarith) hlarea' with ⟨ihlen, ihsum⟩
        constructor
        · rw [List.length_append, hlen', ihlen, hremlen]
          omega
        · rw [List.map_append, List.sum_append, ihsum, hpz, hzsum]
          exact List.sum_take_add_sum_drop areas i

/-- C8: for every rectangle of positive width and height and every
non-empty list of strictly positive desired areas, the squarified-treemap
subdivision terminates (it is a total function here, proved terminating)
and returns exactly one sub-rectangle per desired area, and the returned
sub-rectangles' areas sum exactly to width × height. -/
theorem treemap_subdivide_partition (width height : ℚ) (areas : List ℚ) (ox oy : ℚ)
    (hw : 0 < width) (hh : 0 < height) (hpos : ∀ a ∈ areas, 0 < a) (hne : areas ≠ []) :
    (treemap_subdivide width height areas ox oy).length = areas.length ∧
    ((treemap_subdivide width height areas ox oy).map TRect.area).sum = width * height := by
  unfold treemap_subdivide
  rw [if_neg hne]
  have hsumpos : 0 < areas.sum := List.sum_pos _ hpos hne
  set scale := width * height / areas.sum with hscale
  have hscalepos : 0 < scale := by
    rw [hscale]
    exact div_pos (mul_pos hw hh) hsumpos
  have hscaledpos : ∀ a ∈ areas.map fun a => a * scale, 0 < a := by
    intro a ha
    rcases List.mem_map.mp ha with ⟨b, hb, rfl⟩
    exact mul_pos (hpos b hb) hscalepos
  have hscaledne : areas.map (fun a => a * scale) ≠ [] := by
    simpa using hne
  have hscaledsum : (areas.map fun a => a * scale).sum = width * height := by
    rw [List.sum_map_mul_right]
    simp only [List.map_id']
    rw [hscale]
    field_simp
  have hbx : (⟨ox, oy, ox + width, oy + height⟩ : TRect).x1 <
      (⟨ox, oy, ox + width, oy + height⟩ : TRect).x2 := by
    show ox < ox + width
    linarith
  have hby : (⟨ox, oy, ox + width, oy + height⟩ : TRect).y1 <
      (⟨ox, oy, ox + width, oy + height⟩ : TRect).y2 := by
    show oy < oy + height
    linarith
  have hbarea : TRect.area ⟨ox, oy, ox + width, oy + height⟩ =
      (areas.map fun a => a * scale).sum := by
    rw [hscaledsum]
    have heq : TRect.area ⟨ox, oy, ox + width, oy + height⟩ =
        (ox + width - ox) * (oy + height - oy) :=
      TRect.area_eq (by show ox ≤ ox + width; linarith) (by show oy ≤ oy + height; linarith)
    rw [heq]
    ring
  rcases subdivide_spec_aux (areas.map fun a => a * scale).length
      (areas.map fun a => a * scale) ⟨ox, oy, ox + width, oy + height⟩
      (le_refl _) hscaledpos hbx hby hbarea with ⟨hl, hs⟩
  constructor
  · rw [hl, List.length_map]
  · rw [hs, hscaledsum]

/-- Witness for C8: a 4 × 3 rectangle with two desired areas [6, 6]
splits into exactly 2 sub-rectangles whose areas sum to 12. -/
theorem treemap_subdivide_partition_witness :
    (0:ℚ) < 4 ∧ (0:ℚ) < 3 ∧ (∀ a ∈ [(6:ℚ), 6], 0 < a) ∧ ([(6:ℚ), 6] ≠ []) ∧
    ((treemap_subdivide 4 3 [(6:ℚ), 6] 0 0).length = [(6:ℚ), 6].length ∧
      ((treemap_subdivide 4 3 [(6:ℚ), 6] 0 0).map TRect.area).sum = 4 * 3) := by
  refine ⟨by norm_num, by norm_num, ?_, by simp, ?_⟩
  · intro a ha
    rcases List.mem_cons.mp ha with rfl | ha
    · norm_num
    · rcases List.mem_cons.mp ha with rfl | ha
      · norm_num
      · simp at ha
  · exact treemap_subdivide_partition 4 3 [(6:ℚ), 6] 0 0 (by norm_num) (by norm_num)
      (by intro a ha
          rcases List.mem_cons.mp ha with rfl | ha
          · norm_num
          · rcases List.mem_cons.mp ha with rfl | ha
            · norm_num
            · simp at ha)
      (by simp)

end Plot2Plan.Treemap

namespace Plot2Plan.Entrance

/-!
Embedding of `backend/services/layout_engine/entrance.py`
(`find_entrance_wall_segment` and `place_entrance`).

The shapely geometry is abstracted behind an interface `Geo P`:
`coords`/`bounds` expose the boundary's exterior ring and bounding box,
and `intersection`, `isEmpty`, `area`, `glen` (shapely `.length`),
`isPolygonType`, `geoms`, `touches`, `intersects` are the polygon
operations the code calls.  `mkEntranceRect` packages the
square-root-based construction of the entrance rectangle (unit vectors
along the wall, the inward-normal containment test, the four corners),
whose exact coordinates the claim does not touch.  The two comparisons
against `sqrt`-valued segment lengths (`seg_len < 1.2*0.8` and
`seg_len < 1e-6`) are modelled by comparing squares, which is equivalent
for nonnegative operands.  `float('inf')` (the initial best distance) is
`⊤ : WithTop ℚ`.
-/

/-- A shapely `bounds` quadruple. -/
structure B4 where
  minx : ℚ
  miny : ℚ
  maxx : ℚ
  maxy : ℚ

/-- Interface to the shapely operations used by entrance placement. -/
structure Geo (P : Type) where
  coords : P → List (ℚ × ℚ)
  bounds : P → B4
  intersection : P → P → P
  isEmpty : P → Bool
  area : P → ℚ
  glen : P → ℚ
  isPolygonType : P → Bool
  geoms : P → List P
  touches : P → P → Bool
  intersects : P → P → Bool
  mkEntranceRect : P → (ℚ × ℚ) → (ℚ × ℚ) → ℚ → ℚ → P

/-- Embedding of `room_model.Room` as used by entrance placement. -/
structure GRoom (P : Type) where
  room_type : String
  polygon : P
  target_area : ℚ
  floor : ℤ

/-- The wall segments of the boundary: `(coords[i], coords[(i+1) % n])`
after dropping the closing duplicate vertex. -/
def segPairs (pts : List (ℚ × ℚ)) : List ((ℚ × ℚ) × (ℚ × ℚ)) :=
  match pts with
  | [] => []
  | p :: rest => pts.zip (rest ++ [p])

/-- Embedding of `find_entrance_wall_segment`: pick the wall segment whose
midpoint is closest to a far-off point in the preferred direction,
skipping segments shorter than `DEFAULT_ENTRANCE_WIDTH * 0.8` (the
squared comparison replaces the square root).  An empty segment list
yields the degenerate segment (the Python code would fault there). -/
def find_entrance_wall_segment {P : Type} (G : Geo P) (boundary : P)
    (preferred_side : String) : (ℚ × ℚ) × (ℚ × ℚ) :=
  let pts := (G.coords boundary).dropLast
  let segments := segPairs pts
  let b := G.bounds boundary
  let cx := (b.minx + b.maxx) / 2
  let cy := (b.miny + b.maxy) / 2
  let target : ℚ × ℚ :=
    if preferred_side = "north" then (cx, b.maxy + 100)
    else if preferred_side = "west" then (b.minx - 100, cy)
    else if preferred_side = "east" then (b.maxx + 100, cy)
    else (cx, b.miny - 100)
  match segments with
  | [] => ((0, 0), (0, 0))
  | s0 :: _ =>
    (segments.foldl (fun acc seg =>
      let mid_x := (seg.1.1 + seg.2.1) / 2
      let mid_y := (seg.1.2 + seg.2.2) / 2
      let dist := (mid_x - target.1) ^ 2 + (mid_y - target.2) ^ 2
      let segLenSq := (seg.2.1 - seg.1.1) ^ 2 + (seg.2.2 - seg.1.2) ^ 2
      if segLenSq < (6/5 * (8/10)) ^ 2 then acc
      else
        match acc.2 with
        | none => (seg, some dist)
        | some best => if dist < best then (seg, some dist) else acc) (s0, none)).1

/-- The entrance rectangle built on the chosen wall segment. -/
def entrancePolyOf {P : Type} (G : Geo P) (boundary : P)
    (entrance_width entrance_depth : ℚ) (preferred_side : String) : P :=
  let seg := find_entrance_wall_segment G boundary preferred_side
  G.mkEntranceRect boundary seg.1 seg.2 entrance_width entrance_depth

/-- The raw clip `entrance_poly.intersection(boundary)`. -/
def entranceClip0 {P : Type} (G : Geo P) (boundary : P)
    (entrance_width entrance_depth : ℚ) (preferred_side : String) : P :=
  G.intersection (entrancePolyOf G boundary entrance_width entrance_depth preferred_side) boundary

/-- Python's `max(polys, key=...)`: the first element of maximal area. -/
def maxByArea {P : Type} (G : Geo P) (p : P) (ps : List P) : P :=
  ps.foldl (fun acc q => if G.area acc < G.area q then q else acc) p

/-- The clip after the non-Polygon handling: keep a `Polygon` clip as is,
otherwise take the largest polygonal component (none if there is no
polygonal component). -/
def entranceClip {P : Type} (G : Geo P) (boundary : P)
    (entrance_width entrance_depth : ℚ) (preferred_side : String) : Option P :=
  let clipped0 := entranceClip0 G boundary entrance_width entrance_depth preferred_side
  if G.isPolygonType clipped0 then some clipped0
  else
    match (G.geoms clipped0).filter G.isPolygonType with
    | [] => none
    | p :: ps => some (maxByArea G p ps)

/-- The two connection scans over the rooms: shared boundary length above
0.01, or else a touches/intersects test. -/
def connectedToSome {P : Type} (G : Geo P) (clip : P) (rooms : List (GRoom P)) : Bool :=
  (rooms.any fun room => 1/100 < G.glen (G.intersection clip room.polygon)) ||
    (rooms.any fun room => G.touches clip room.polygon || G.intersects clip room.polygon)

/-- Embedding of `place_entrance`: fail on a degenerate wall segment, clip
the entrance rectangle to the boundary, fail when the clip is empty or
under 0.01 in area or has no polygonal component, fail when the clip
connects to no room, and otherwise return the entrance room. -/
def place_entrance {P : Type} (G : Geo P) (boundary : P) (rooms : List (GRoom P))
    (entrance_width entrance_depth : ℚ) (preferred_side : String) : Option (GRoom P) :=
  let seg := find_entrance_wall_segment G boundary preferred_side
  let dx := seg.2.1 - seg.1.1
  let dy := seg.2.2 - seg.1.2
  if dx ^ 2 + dy ^ 2 < (1/1000000) ^ 2 then none
  else
    let clipped0 := entranceClip0 G boundary entrance_width entrance_depth preferred_side
    if G.isEmpty clipped0 || G.area clipped0 < 1/100 then none
    else
      match entranceClip G boundary entrance_width entrance_depth preferred_side with
      | none => none
      | some clip =>
        if connectedToSome G clip rooms then
          some ⟨"entrance", clip, entrance_width * entrance_depth, 0⟩
        else none

/-- C7: whenever `place_entrance` returns a room, it is tagged
"entrance", its polygon is the (polygonal part of the) entrance rectangle
clipped to the boundary, the raw clip is non-empty with area at least
0.01, and the polygon shares boundary length above 0.01 with — or at
least touches/intersects — some given room; and when the clip is empty,
too small, or connects to no room, the operation returns none. -/
theorem place_entrance_spec {P : Type} (G : Geo P) (boundary : P) (rooms : List (GRoom P))
    (ew ed : ℚ) (side : String) :
    (∀ r, place_entrance G boundary rooms ew ed side = some r →
      r.room_type = "entrance" ∧
      entranceClip G boundary ew ed side = some r.polygon ∧
      G.isEmpty (entranceClip0 G boundary ew ed side) = false ∧
      1/100 ≤ G.area (entranceClip0 G boundary ew ed side) ∧
      ∃ room ∈ rooms,
        1/100 < G.glen (G.intersection r.polygon room.polygon) ∨
        G.touches r.polygon room.polygon = true ∨
        G.intersects r.polygon room.polygon = true) ∧
    ((G.isEmpty (entranceClip0 G boundary ew ed side) = true ∨
        G.area (entranceClip0 G boundary ew ed side) < 1/100) →
      place_entrance G boundary rooms ew ed side = none) ∧
    (∀ clip, entranceClip G boundary ew ed side = some clip →
      connectedToSome G clip rooms = false →
      place_entrance G boundary rooms ew ed side = none) := by
  refine ⟨?_, ?_, ?_⟩
  · intro r hr
    simp only [place_entrance] at hr
    split_ifs at hr with hseg hclip
    revert hr
    cases hcl : entranceClip G boundary ew ed side with
    | none => intro hr; exact Option.noConfusion hr
    | some clip =>
      intro hr
      dsimp only at hr
      split_ifs at hr with hconn
      have hre : r = ⟨"entrance", clip, ew * ed, 0⟩ := (Option.some_inj.mp hr).symm
      subst hre
      simp only [Bool.or_eq_true, not_or, decide_eq_true_eq, not_lt] at hclip
      refine ⟨rfl, by simp [hcl], by simp [hclip.1], hclip.2, ?_⟩
      unfold connectedToSome at hconn
      rcases Bool.or_eq_true_iff.mp hconn with h1 | h2
      · rcases List.any_eq_true.mp h1 with ⟨room, hroom, hlen⟩
        exact ⟨room, hroom, Or.inl (by simpa using hlen)⟩
      · rcases List.any_eq_true.mp h2 with ⟨room, hroom, hti⟩
        rcases Bool.or_eq_true_iff.mp hti with ht | hi
        · exact ⟨room, hroom, Or.inr (Or.inl ht)⟩
        · exact ⟨room, hroom, Or.inr (Or.inr hi)⟩
  · intro hfail
    simp only [place_entrance]
    split_ifs with hseg hclip
    · rfl
    · rfl
    · exfalso
      apply hclip
      simp only [Bool.or_eq_true, decide_eq_true_eq]
      rcases hfail with h | h
      · exact Or.inl h
      · exact Or.inr h
  · intro clip hcl hnc
    simp only [place_entrance]
    split_ifs with hseg hclip
    · rfl
    · rfl
    · rw [hcl]
      simp [hnc]

/-- A concrete one-point geometry used to exercise `place_entrance`: a
single 3-unit wall, every polygon non-empty with area 1 and boundary
length 1, everything polygonal and touching. -/
def unitGeo : Geo Unit where
  coords _ := [(0, 0), (3, 0), (0, 0)]
  bounds _ := ⟨0, 0, 3, 0⟩
  intersection _ _ := ()
  isEmpty _ := false
  area _ := 1
  glen _ := 1
  isPolygonType _ := true
  geoms _ := []
  touches _ _ := true
  intersects _ _ := true
  mkEntranceRect _ _ _ _ _ := ()

/-- A single interior room for the witness geometry. -/
def unitRoom : GRoom Unit := ⟨"living", (), 100, 0⟩

/-- The room the witness run returns. -/
def entranceResult : GRoom Unit := ⟨"entrance", (), 6/5 * (3/2), 0⟩

/-- Witness for C7: on the concrete geometry, `place_entrance` succeeds
and the returned room is tagged "entrance". -/
theorem place_entrance_spec_witness :
    place_entrance unitGeo () [unitRoom] (6/5) (3/2) "south" = some entranceResult ∧
    entranceResult.room_type = "entrance" := by
  have heval : place_entrance unitGeo () [unitRoom] (6/5) (3/2) "south" =
      some entranceResult := by
    have hs1 : ("south" : String) ≠ "north" := by decide
    have hs2 : ("south" : String) ≠ "west" := by decide
    have hs3 : ("south" : String) ≠ "east" := by decide
    norm_num [place_entrance, find_entrance_wall_segment, segPairs, entranceClip0,
      entranceClip, entrancePolyOf, connectedToSome, unitGeo, unitRoom, entranceResult,
      hs1, hs2, hs3, List.foldl_cons, List.foldl_nil, WithTop.coe_lt_top, WithTop.coe_lt_coe]
  exact ⟨heval,
    ((place_entrance_spec unitGeo () [unitRoom] (6/5) (3/2) "south").1
      entranceResult heval).1⟩

end Plot2Plan.Entrance

namespace Plot2Plan.Boundary

/-!
Embedding of `extract_polygon_from_dxf` from
`backend/services/boundary.py`.  The ezdxf parsing step is abstracted:
the input is the list of LWPOLYLINE point lists and LINE segments found
in the modelspace.  `shapely.MultiPoint(...).convex_hull` is modelled by
an exact monotone-chain convex hull over the rational points; a hull
with fewer than 3 vertices corresponds to a non-`Polygon` hull
(`geom_type != "Polygon"`), and `Polygon(...).area` is the shoelace
area.  Python's `round(x, 2)` is exact round-half-to-even.
-/

/-- Cross product of `oa` and `ob`. -/
def cross (o a b : ℚ × ℚ) : ℚ := (a.1 - o.1) * (b.2 - o.2) - (a.2 - o.2) * (b.1 - o.1)

/-- Lexicographic order on points. -/
def ptLe (p q : ℚ × ℚ) : Bool := p.1 < q.1 || (p.1 = q.1 && p.2 ≤ q.2)

/-- Insertion into a lexicographically sorted list. -/
def insertPt (x : ℚ × ℚ) : List (ℚ × ℚ) → List (ℚ × ℚ)
  | [] => [x]
  | y :: ys => if ptLe x y then x :: y :: ys else y :: insertPt x ys

/-- Lexicographic insertion sort of the point list. -/
def sortPts (l : List (ℚ × ℚ)) : List (ℚ × ℚ) := l.foldr insertPt []

/-- Add a point to a (reversed) half-hull chain, popping non-left turns. -/
def chainAdd : List (ℚ × ℚ) → ℚ × ℚ → List (ℚ × ℚ)
  | b :: a :: rest, p =>
    if cross a b p ≤ 0 then chainAdd (a :: rest) p else p :: b :: a :: rest
  | l, p => p :: l

/-- One monotone-chain pass over the points, returned in reverse order. -/
def halfHull (pts : List (ℚ × ℚ)) : List (ℚ × ℚ) := pts.foldl chainAdd []

/-- Monotone-chain convex hull: counter-clockwise vertex list without the
closing duplicate. -/
def convexHullCoords (pts : List (ℚ × ℚ)) : List (ℚ × ℚ) :=
  let sorted := sortPts pts
  let lower := halfHull sorted
  let upper := halfHull sorted.reverse
  (lower.drop 1).reverse ++ (upper.drop 1).reverse

/-- Twice the signed shoelace sum over consecutive coordinate pairs of a
closed ring. -/
def shoelaceSum : List (ℚ × ℚ) → ℚ
  | p :: q :: rest => (p.1 * q.2 - q.1 * p.2) + shoelaceSum (q :: rest)
  | _ => 0

/-- Polygon area of a closed coordinate ring. -/
def polyArea (coords : List (ℚ × ℚ)) : ℚ := |shoelaceSum coords| / 2

/-- The boundary entities of a DXF modelspace: LWPOLYLINE point lists and
LINE segments. -/
structure DxfEntities where
  lwpolylines : List (List (ℚ × ℚ))
  lines : List ((ℚ × ℚ) × (ℚ × ℚ))

/-- Return value of `extract_polygon_from_dxf`. -/
structure BoundaryResult where
  polygon : List (ℚ × ℚ)
  area : ℚ
  num_vertices : ℕ
deriving DecidableEq

/-- Embedding of `extract_polygon_from_dxf`: collect all points, build the
convex hull, fail if it is not a polygon, round hull coordinates to 2
decimals, and report the shoelace area (rounded to 2 decimals) and the
vertex count with the closing duplicate excluded. -/
def extract_polygon_from_dxf (doc : DxfEntities) : Except String BoundaryResult :=
  let all_points := doc.lwpolylines.foldr (· ++ ·) [] ++
    doc.lines.foldr (fun l acc => l.1 :: l.2 :: acc) []
  if all_points = [] then .error "No LINE or LWPOLYLINE entities found in DXF."
  else
    let hull := convexHullCoords all_points
    if hull.length < 3 then .error "Could not form a valid polygon from DXF entities."
    else
      let ring := hull ++ [hull.headD (0, 0)]
      let polygon_coords := ring.map fun c => (pyRound c.1 2, pyRound c.2 2)
      let area := pyRound (polyArea polygon_coords) 2
      .ok ⟨polygon_coords, area, polygon_coords.length - 1⟩

/-- The C4 input: a single closed 4-vertex rectangular polyline with
bounds 20 × 15. -/
def dxfRectInput : DxfEntities := ⟨[[(0, 0), (20, 0), (20, 15), (0, 15), (0, 0)]], []⟩

/-- C4: on a DXF whose only boundary entity is a closed 4-vertex
rectangular polyline of bounds 20 × 15, the extractor succeeds with
`area == 300.0` and `num_vertices == 4` (closing duplicate excluded),
via the convex hull of all collected points with coordinates rounded to
2 decimals. -/
theorem extract_polygon_from_dxf_rect :
    extract_polygon_from_dxf dxfRectInput =
      .ok ⟨[(0, 0), (20, 0), (20, 15), (0, 15), (0, 0)], 300, 4⟩ := by
  norm_num [extract_polygon_from_dxf, dxfRectInput, convexHullCoords, sortPts, insertPt,
    ptLe, halfHull, chainAdd, cross, shoelaceSum, polyArea, pyRound, roundHalfEven]
  intro h
  exact absurd h (List.cons_ne_nil _ _)

end Plot2Plan.Boundary
